import Mathlib

/-!
Verification of the asset listing and pruning engine of `gee_toolbox`
(`src/gee_toolbox/gee/assets.py`).

The remote Earth Engine service and the `geetools.Asset` helper are external
collaborators; they are abstracted by an environment `Env` that resolves the
kind of a path, lists the immediate children of a path, decides whether a path
is a project root, and decides whether a remote delete succeeds.  Interactive
confirmation input is modelled as a list of answers consumed in order; an
exhausted list models end of input.  All remote existence checks, child
listings and deletions performed by a run are collected in a `RemoteCall`
trace.  Recursion over the remote namespace is bounded by an explicit fuel
parameter; running out of fuel yields the distinguished error `Err.fuelOut`
(the Python source would recurse without bound on such a namespace).
-/

/-- String constants for the asset kinds and the other literals of the source. -/
def sIMAGE : String := "IMAGE"

def sTABLE : String := "TABLE"

def sFOLDER : String := "FOLDER"

def sIC : String := "IMAGE_COLLECTION"

def sSlash : String := "/"

def sY : String := "y"

def sN : String := "n"

def sNo : String := ""

/-- Errors raised by the engine.  The four policy errors correspond to the
distinct `ValueError` messages of the source; `notFound` models the
`ee.EEException` of a failed existence check or kind resolution; `notAContainer`
models the `ValueError` of `list_assets` on a non-container parent;
`remoteErr` models an `ee.EEException` from a child-listing call; `noInput`
models `EOFError` when the confirmation input is exhausted; `unboundLocal`
models Python's `UnboundLocalError`; `fuelOut` is the fuel bound. -/
inductive Err where
  | invalidKind
  | folderNeedsAll
  | folderNeedsFlags
  | icNeedsExpand
  | notFound
  | notAContainer
  | remoteErr
  | noInput
  | unboundLocal
  | fuelOut
deriving DecidableEq

/-- The InvalidPolicy class of the error taxonomy: caller errors detected by
policy validation. -/
def Err.isInvalidPolicy : Err → Bool
  | .invalidKind => true
  | .folderNeedsAll => true
  | .folderNeedsFlags => true
  | .icNeedsExpand => true
  | _ => false

/-- Remote interactions performed by a run: existence checks, child listings
and node deletions. -/
inductive RemoteCall where
  | existsCheck (p : String)
  | listChildren (p : String)
  | deleteNode (p : String)
deriving DecidableEq

/-- A `{"name": ..., "type": ...}` record of the source. -/
structure AssetRec where
  name : String
  type : String
deriving DecidableEq

/-- The `{"deleted": ..., "failed": ..., "skipped": ...}` result of `prune`. -/
structure PruneResults where
  deleted : List String
  failed : List String
  skipped : List String
deriving DecidableEq

/-- The external collaborators.  `kind` is the `Asset.type` resolution
(`none` models a nonexistent path), `children` is `ee.data.listAssets`
(`none` models a remote failure), `is_project` is the pure path-shape test
`Asset.is_project()` of geetools, and `delete_ok` tells whether
`ee.data.deleteAsset` succeeds on a path. -/
structure Env where
  kind : String → Option String
  children : String → Option (List AssetRec)
  is_project : String → Bool
  delete_ok : String → Bool

/-- `ALLOWED_ASSET_TYPES` of the source. -/
def ALLOWED_ASSET_TYPES : List String := [sIMAGE, sTABLE, sFOLDER, sIC]

/-- Python's `str.upper()` (ASCII, as used on kind names). -/
def strUpper (s : String) : String := ⟨s.data.map Char.toUpper⟩

/-- Python's `str.lower()` (ASCII, as used on confirmation answers). -/
def strLower (s : String) : String := ⟨s.data.map Char.toLower⟩

/-- `_check_asset_types` of the source: a falsy input becomes the full closed
set, a single string becomes a one-element list, every entry is uppercased,
and any entry outside the closed set raises `ValueError`. -/
def check_asset_types (asset_types : String ⊕ List String) : Except Err (List String) :=
  let lst : List String :=
    match asset_types with
    | .inl s => if s = sNo then ALLOWED_ASSET_TYPES else [s]
    | .inr l => if l = [] then ALLOWED_ASSET_TYPES else l
  let up := lst.map (fun s => strUpper s)
  if ∀ a ∈ up, a ∈ ALLOWED_ASSET_TYPES then .ok up else .error .invalidKind

/-- `_request_del_confirmation` of the source: keep reading answers until one
is `y`, `n` or empty (case-insensitively), then accept exactly on `y`.
`none` models `EOFError` on an exhausted input. -/
def request_del_confirmation : List String → Option Bool
  | [] => none
  | ans :: rest =>
    let a := strLower ans
    if a = sY ∨ a = sN ∨ a = sNo then some (decide (a = sY))
    else request_del_confirmation rest

/-- `get_asset_names` of the source. -/
def get_asset_names (asset_list : List AssetRec) : List String :=
  asset_list.map (fun a => a.name)

/-- The segments of a path, as in `Asset.parts` for Earth Engine asset names
(which never carry a leading slash). -/
def path_parts (p : String) : List String :=
  ((p.data.splitOn ('/')).map (fun cs => (⟨cs⟩ : String))).filter (fun s => !(s == sNo))

/-- The depth of a path: its number of segments. -/
def depth (p : String) : Nat := (path_parts p).length

/-- Sequence two traced fallible computations: on error the first trace and
error are returned, otherwise the traces are concatenated. -/
def seqE (a : List RemoteCall × Except Err (List AssetRec))
    (f : List AssetRec → List RemoteCall × Except Err (List AssetRec)) :
    List RemoteCall × Except Err (List AssetRec) :=
  match a with
  | (tr, .error e) => (tr, .error e)
  | (tr, .ok l) =>
    let b := f l
    (tr ++ b.1, b.2)

/-- The per-child loop body of `list_assets`.  `recCall nm e x` stands for the
recursive call `list_assets(nm, asset_types=[], recursive=True,
inclusive=False, expand_image_collections=e, image_collections_exclusively=x)`.
A child is appended unless the exclusive sweep is on, the child is an IMAGE and
the parent is not an IMAGE_COLLECTION; folders are entered when `recursive`,
collections when `expandICs`. -/
def list_assets_loop
    (recCall : String → Bool → Bool → List RemoteCall × Except Err (List AssetRec))
    (parentKind : String) (recursive expandICs excl : Bool) :
    List AssetRec → List RemoteCall × Except Err (List AssetRec)
  | [] => ([], .ok [])
  | c :: cs =>
    let head : List AssetRec :=
      if excl ∧ c.type = sIMAGE ∧ parentKind ≠ sIC then [] else [c]
    seqE (if recursive ∧ c.type = sFOLDER then recCall c.name expandICs excl
          else ([], .ok [])) (fun l1 =>
    seqE (if expandICs ∧ c.type = sIC then recCall c.name true false
          else ([], .ok [])) (fun l2 =>
    seqE (list_assets_loop recCall parentKind recursive expandICs excl cs) (fun l3 =>
    ([], .ok (head ++ l1 ++ l2 ++ l3)))))

/-- `list_assets` of the source.  The kind filter is validated first; the
parent's kind is resolved and must be FOLDER or IMAGE_COLLECTION; expansion of
collections is forced when the parent is a collection; the children are
listed remotely, walked by `list_assets_loop` (with the parent record first
when `inclusive`), and the accumulated records are filtered by the kind
filter at the very end. -/
def list_assets : Nat → Env → String → (String ⊕ List String) → Bool → Bool → Bool → Bool →
    List RemoteCall × Except Err (List AssetRec)
  | 0, _, _, _, _, _, _, _ => ([], .error .fuelOut)
  | fuel + 1, env, parent, asset_types, recursive, inclusive, expandICs, excl =>
    match check_asset_types asset_types with
    | .error e => ([], .error e)
    | .ok types =>
      match env.kind parent with
      | none => ([], .error .notFound)
      | some parentKind =>
        if parentKind = sFOLDER ∨ parentKind = sIC then
          let expand2 : Bool := if parentKind = sIC then true else expandICs
          match env.children parent with
          | none => ([.listChildren parent], .error .remoteErr)
          | some cs =>
            let base : List AssetRec := if inclusive then [⟨parent, parentKind⟩] else []
            let lp := list_assets_loop
              (fun nm e2 x2 => list_assets fuel env nm (.inr []) true false e2 x2)
              parentKind recursive expand2 excl cs
            match lp.2 with
            | .error e => (.listChildren parent :: lp.1, .error e)
            | .ok l =>
              (.listChildren parent :: lp.1,
               .ok ((base ++ l).filter (fun a => decide (a.type ∈ types))))
        else ([], .error .notAContainer)
termination_by structural fuel _ _ _ _ _ _ _ => fuel

/-- The bucket of a deletion plan at depth `k`: the names of the records of the
enumerated list whose path has `k` segments, in enumeration order (the per-key
append order of the source's dictionary). -/
def bucket_of (l : List AssetRec) (k : Nat) : List String :=
  (l.filter (fun r => decide (depth r.name = k))).map (fun r => r.name)

/-- The distinct depth keys occurring in an enumerated list. -/
def plan_keys (l : List AssetRec) : List Nat :=
  (l.map (fun r => depth r.name)).dedup

/-- Sort depth keys in descending order, as
`dict(sorted(assets_ordered.items(), reverse=True))` does. -/
def sort_desc (ks : List Nat) : List Nat :=
  List.insertionSort (fun a b => b ≤ a) ks

/-- The deletion plan of `prune`: buckets keyed by depth, iterated from the
greatest key to the smallest. -/
def build_plan (l : List AssetRec) : List (Nat × List String) :=
  (sort_desc (plan_keys l)).map (fun k => (k, bucket_of l k))

/-- The inner `_delete` loop over one bucket: each path is attempted, a
success is appended to `deleted`, a failure to `failed`. -/
def run_bucket (env : Env) : List String → List String × List String
  | [] => ([], [])
  | p :: ps =>
    let r := run_bucket env ps
    if env.delete_ok p then (p :: r.1, r.2) else (r.1, p :: r.2)

/-- The deletion phase: buckets are consumed in plan order, deepest first. -/
def run_plan (env : Env) : List (Nat × List String) → List String × List String
  | [] => ([], [])
  | b :: bs =>
    let r1 := run_bucket env b.2
    let r2 := run_plan env bs
    (r1.1 ++ r2.1, r1.2 ++ r2.2)

/-- The policy checks of `prune` that follow `_check_asset_types`, in source
order: a filter containing FOLDER must contain every allowed kind; deleting
folders (when the target is not itself an image collection) needs
`recursive` and `expand_image_collections`; deleting image collections needs
`expand_image_collections`; finally IMAGE is implicitly added (with the
exclusive-sweep flag) when IMAGE_COLLECTION is targeted without IMAGE. -/
def prune_validate (rootKind : String) (types : List String)
    (recursive expandICs : Bool) : Except Err (List String × Bool) :=
  if sFOLDER ∈ types ∧ ¬(∀ t ∈ ALLOWED_ASSET_TYPES, t ∈ types) then
    .error .folderNeedsAll
  else if sFOLDER ∈ types ∧ rootKind ≠ sIC ∧ (¬recursive ∨ ¬expandICs) then
    .error .folderNeedsFlags
  else if sIC ∈ types ∧ ¬expandICs then
    .error .icNeedsExpand
  else if sIC ∈ types ∧ sIMAGE ∉ types then
    .ok (types ++ [sIMAGE], true)
  else
    .ok (types, false)

/-- The tail of `prune` after candidate listing: the dry-run short-circuit,
the confirmation gate, and the deletion phase.  `plan?` is `none` exactly when
the source leaves the local variable `assets_ordered` unassigned (non-container
target), in which case a confirmed run raises `UnboundLocalError`. -/
def prune_finish (env : Env) (stream : List String) (silent dryRun : Bool)
    (tr : List RemoteCall) (asset_list : List AssetRec)
    (plan? : Option (List (Nat × List String))) :
    List RemoteCall × Except Err PruneResults :=
  if dryRun then (tr, .ok ⟨[], [], get_asset_names asset_list⟩)
  else
    match (if silent then some true else request_del_confirmation stream) with
    | none => (tr, .error .noInput)
    | some false => (tr, .ok ⟨[], [], get_asset_names asset_list⟩)
    | some true =>
      match plan? with
      | none => (tr, .error .unboundLocal)
      | some plan =>
        let r := run_plan env plan
        (tr ++ ((plan.map Prod.snd).flatten.map RemoteCall.deleteNode),
         .ok ⟨r.1, r.2, []⟩)

/-- `prune` of the source.  The target's existence is checked first (a remote
call); then the kind filter is normalized and the policy rules run; for a
container target (project, folder or collection) the candidates are
enumerated by `list_assets` and bucketed by depth, otherwise the candidate
list degenerates to the target alone and `assets_ordered` stays unassigned;
`prune_finish` then applies dry-run, confirmation and deletion. -/
def prune (fuel : Nat) (env : Env) (stream : List String) (asset : String)
    (asset_types : String ⊕ List String)
    (recursive expandICs inclusive silent dryRun : Bool) :
    List RemoteCall × Except Err PruneResults :=
  match env.kind asset with
  | none => ([.existsCheck asset], .error .notFound)
  | some rootKind =>
    match check_asset_types asset_types with
    | .error e => ([.existsCheck asset], .error e)
    | .ok types0 =>
      match prune_validate rootKind types0 recursive expandICs with
      | .error e => ([.existsCheck asset], .error e)
      | .ok (types, excl) =>
        if env.is_project asset ∨ rootKind = sFOLDER ∨ rootKind = sIC then
          match list_assets fuel env asset (.inr types) recursive inclusive expandICs excl with
          | (ltr, .error e) => (.existsCheck asset :: ltr, .error e)
          | (ltr, .ok asset_list) =>
            prune_finish env stream silent dryRun (.existsCheck asset :: ltr)
              asset_list (some (build_plan asset_list))
        else
          prune_finish env stream silent dryRun [.existsCheck asset]
            [⟨asset, rootKind⟩] none

deriving instance DecidableEq for Except

/-! Helper lemmas about the deletion plan. -/

instance : IsTotal Nat (fun a b => b ≤ a) := ⟨fun a b => Nat.le_total b a⟩

instance : IsTrans Nat (fun a b => b ≤ a) := ⟨fun _ _ _ h1 h2 => Nat.le_trans h2 h1⟩

theorem mem_sort_desc {a : Nat} {ks : List Nat} : a ∈ sort_desc ks ↔ a ∈ ks :=
  (List.perm_insertionSort _ ks).mem_iff

theorem sort_desc_sorted (ks : List Nat) : (sort_desc ks).Sorted (fun a b => b ≤ a) :=
  List.sorted_insertionSort _ ks

theorem sort_desc_nodup {ks : List Nat} (h : ks.Nodup) : (sort_desc ks).Nodup :=
  ((List.perm_insertionSort _ ks).nodup_iff).mpr h

theorem plan_keys_nodup (l : List AssetRec) : (plan_keys l).Nodup :=
  List.nodup_dedup _

theorem mem_plan_keys {l : List AssetRec} {r : AssetRec} (h : r ∈ l) :
    depth r.name ∈ plan_keys l :=
  List.mem_dedup.mpr (List.mem_map_of_mem _ h)

theorem mem_bucket_iff {l : List AssetRec} {k : Nat} {nm : String} :
    nm ∈ bucket_of l k ↔ ∃ r ∈ l, r.name = nm ∧ depth nm = k := by
  constructor
  · intro h
    obtain ⟨r, hr, rfl⟩ := List.mem_map.mp h
    obtain ⟨hrl, hd⟩ := List.mem_filter.mp hr
    exact ⟨r, hrl, rfl, by simpa using hd⟩
  · rintro ⟨r, hr, rfl, hd⟩
    exact List.mem_map.mpr ⟨r, List.mem_filter.mpr ⟨hr, by simpa using hd⟩, rfl⟩

theorem bucket_depth {l : List AssetRec} {k : Nat} {nm : String}
    (h : nm ∈ bucket_of l k) : depth nm = k := by
  obtain ⟨r, -, -, hd⟩ := mem_bucket_iff.mp h
  exact hd

theorem build_plan_keys (l : List AssetRec) :
    (build_plan l).map Prod.fst = sort_desc (plan_keys l) := by
  simp only [build_plan, List.map_map]
  exact List.map_id _

theorem mem_build_plan {l : List AssetRec} {k : Nat} {ps : List String} :
    (k, ps) ∈ build_plan l ↔ k ∈ sort_desc (plan_keys l) ∧ ps = bucket_of l k := by
  constructor
  · intro h
    obtain ⟨k2, hk2, heq⟩ := List.mem_map.mp h
    have h1 : k2 = k := congrArg Prod.fst heq
    have h2 : bucket_of l k2 = ps := congrArg Prod.snd heq
    subst h1
    exact ⟨hk2, h2.symm⟩
  · rintro ⟨hk, rfl⟩
    exact List.mem_map.mpr ⟨k, hk, rfl⟩

theorem pairwise_and_aux {α : Type} {R S : α → α → Prop} :
    ∀ {l : List α}, l.Pairwise R → l.Pairwise S →
      l.Pairwise (fun a b => R a b ∧ S a b) := by
  intro l h1 h2
  induction h1 with
  | nil => exact .nil
  | cons hhead _ ih =>
    cases h2 with
    | cons h2head h2tail => exact .cons (fun b hb => ⟨hhead b hb, h2head b hb⟩) (ih h2tail)

theorem keys_pairwise_gt (l : List AssetRec) :
    ((build_plan l).map Prod.fst).Pairwise (fun a b => a > b) := by
  rw [build_plan_keys]
  have hs : (sort_desc (plan_keys l)).Pairwise (fun a b => b ≤ a) :=
    sort_desc_sorted (plan_keys l)
  have hn : (sort_desc (plan_keys l)).Pairwise (fun a b => a ≠ b) :=
    sort_desc_nodup (plan_keys_nodup l)
  exact (pairwise_and_aux hs hn).imp
    (fun h => Nat.lt_of_le_of_ne h.1 (fun he => h.2 he.symm))

theorem bucket_exists {l : List AssetRec} {r : AssetRec} (hr : r ∈ l) :
    ∃ ps, (depth r.name, ps) ∈ build_plan l ∧ r.name ∈ ps := by
  refine ⟨bucket_of l (depth r.name), ?_, ?_⟩
  · exact mem_build_plan.mpr ⟨mem_sort_desc.mpr (mem_plan_keys hr), rfl⟩
  · exact mem_bucket_iff.mpr ⟨r, hr, rfl, rfl⟩

theorem bucket_unique {l : List AssetRec} {r : AssetRec} {k : Nat} {ps : List String}
    (hmem : (k, ps) ∈ build_plan l) (hn : r.name ∈ ps) : k = depth r.name := by
  obtain ⟨-, rfl⟩ := mem_build_plan.mp hmem
  exact (bucket_depth hn).symm

theorem pairwise_of_all {α : Type} {R : α → α → Prop} :
    ∀ (l : List α), (∀ a ∈ l, ∀ b ∈ l, R a b) → l.Pairwise R := by
  intro l
  induction l with
  | nil => intro _; exact .nil
  | cons a t ih =>
    intro h
    exact .cons (fun b hb => h a (by simp) b (by simp [hb]))
      (ih (fun x hx y hy => h x (by simp [hx]) y (by simp [hy])))

theorem plan_flatten_pairwise (l : List AssetRec) :
    (((build_plan l).map Prod.snd).flatten).Pairwise (fun a b => depth b ≤ depth a) := by
  rw [List.pairwise_flatten]
  constructor
  · intro ps hps
    obtain ⟨x, hx, rfl⟩ := List.mem_map.mp hps
    have hxb : x.2 = bucket_of l x.1 := (mem_build_plan.mp (by simpa using hx)).2
    refine pairwise_of_all _ (fun a ha b hb => ?_)
    have hda : depth a = x.1 := bucket_depth (hxb ▸ ha)
    have hdb : depth b = x.1 := bucket_depth (hxb ▸ hb)
    omega
  · rw [List.pairwise_map]
    have hk : (build_plan l).Pairwise (fun x y => x.1 > y.1) := by
      have := keys_pairwise_gt l
      rwa [List.pairwise_map] at this
    refine hk.imp_of_mem ?_
    intro x y hx hy hgt a ha b hb
    have hxb : x.2 = bucket_of l x.1 := (mem_build_plan.mp (by simpa using hx)).2
    have hyb : y.2 = bucket_of l y.1 := (mem_build_plan.mp (by simpa using hy)).2
    have hda : depth a = x.1 := bucket_depth (hxb ▸ ha)
    have hdb : depth b = y.1 := bucket_depth (hyb ▸ hb)
    omega

/-! Counting lemmas: the buckets of a plan partition the enumerated list. -/

theorem length_filter_split {α : Type} (p : α → Bool) :
    ∀ l : List α, (l.filter p).length + (l.filter (fun a => !(p a))).length = l.length := by
  intro l
  induction l with
  | nil => rfl
  | cons a t ih =>
    cases hpa : p a <;> simp [List.filter_cons, hpa] <;> omega

theorem sum_bucket_lengths {α : Type} (key : α → Nat) :
    ∀ ks : List Nat, ks.Nodup → ∀ l : List α, (∀ x ∈ l, key x ∈ ks) →
      ((ks.map (fun k => (l.filter (fun x => decide (key x = k))).length)).sum = l.length) := by
  intro ks
  induction ks with
  | nil =>
    intro _ l hcov
    cases l with
    | nil => simp
    | cons a t => exact absurd (hcov a (by simp)) (by simp)
  | cons k kt ih =>
    intro hnd l hcov
    have hkt : ∀ x ∈ l.filter (fun x => !(decide (key x = k))), key x ∈ kt := by
      intro x hx
      obtain ⟨hxl, hxne⟩ := List.mem_filter.mp hx
      have hmem := hcov x hxl
      have hne : ¬key x = k := by simpa using hxne
      simpa [hne] using hmem
    have hrec := ih (List.Nodup.of_cons hnd) _ hkt
    have hmap : kt.map (fun k2 => (l.filter (fun x => decide (key x = k2))).length) =
        kt.map (fun k2 =>
          ((l.filter (fun x => !(decide (key x = k)))).filter
            (fun x => decide (key x = k2))).length) := by
      refine List.map_congr_left (fun k2 hk2 => ?_)
      have hkne : k2 ≠ k := by
        intro h
        subst h
        exact (List.nodup_cons.mp hnd).1 hk2
      congr 1
      rw [List.filter_filter]
      refine (List.filter_congr (fun x hx => ?_)).symm
      cases hxe : decide (key x = k2) with
      | true =>
        have : key x = k2 := of_decide_eq_true hxe
        simp [this, hkne]
      | false => simp [hxe]
    rw [List.map_cons, List.sum_cons, hmap, hrec]
    exact length_filter_split _ l

theorem plan_lengths (l : List AssetRec) :
    (((build_plan l).map Prod.snd).map List.length).sum = l.length := by
  have hmap : ((build_plan l).map Prod.snd).map List.length =
      (sort_desc (plan_keys l)).map
        (fun k => (l.filter (fun r => decide (depth r.name = k))).length) := by
    simp [build_plan, List.map_map, Function.comp, bucket_of]
  rw [hmap]
  exact sum_bucket_lengths (fun r => depth r.name) _
    (sort_desc_nodup (plan_keys_nodup l)) l
    (fun r hr => mem_sort_desc.mpr (mem_plan_keys hr))

/-! Lemmas about the deletion executor. -/

theorem run_bucket_length (env : Env) :
    ∀ ps : List String,
      (run_bucket env ps).1.length + (run_bucket env ps).2.length = ps.length := by
  intro ps
  induction ps with
  | nil => rfl
  | cons p t ih =>
    cases hd : env.delete_ok p <;> simp [run_bucket, hd] <;> omega

theorem run_bucket_cons_true {env : Env} {q : String} {t : List String}
    (hd : env.delete_ok q = true) :
    run_bucket env (q :: t) = (q :: (run_bucket env t).1, (run_bucket env t).2) := by
  simp [run_bucket, hd]

theorem run_bucket_cons_false {env : Env} {q : String} {t : List String}
    (hd : env.delete_ok q = false) :
    run_bucket env (q :: t) = ((run_bucket env t).1, q :: (run_bucket env t).2) := by
  simp [run_bucket, hd]

theorem run_bucket_mem_del (env : Env) :
    ∀ ps p, p ∈ (run_bucket env ps).1 ↔ p ∈ ps ∧ env.delete_ok p = true := by
  intro ps p
  induction ps with
  | nil => simp [run_bucket]
  | cons q t ih =>
    cases hd : env.delete_ok q with
    | true =>
      rw [run_bucket_cons_true hd]
      simp only [List.mem_cons, ih]
      constructor
      · rintro (rfl | ⟨h1, h2⟩)
        · exact ⟨Or.inl rfl, hd⟩
        · exact ⟨Or.inr h1, h2⟩
      · rintro ⟨rfl | h1, h2⟩
        · exact Or.inl rfl
        · exact Or.inr ⟨h1, h2⟩
    | false =>
      rw [run_bucket_cons_false hd]
      simp only [List.mem_cons, ih]
      constructor
      · rintro ⟨h1, h2⟩
        exact ⟨Or.inr h1, h2⟩
      · rintro ⟨rfl | h1, h2⟩
        · exact absurd h2 (by simp [hd])
        · exact ⟨h1, h2⟩

theorem run_bucket_mem_fail (env : Env) :
    ∀ ps p, p ∈ (run_bucket env ps).2 ↔ p ∈ ps ∧ env.delete_ok p = false := by
  intro ps p
  induction ps with
  | nil => simp [run_bucket]
  | cons q t ih =>
    cases hd : env.delete_ok q with
    | false =>
      rw [run_bucket_cons_false hd]
      simp only [List.mem_cons, ih]
      constructor
      · rintro (rfl | ⟨h1, h2⟩)
        · exact ⟨Or.inl rfl, hd⟩
        · exact ⟨Or.inr h1, h2⟩
      · rintro ⟨rfl | h1, h2⟩
        · exact Or.inl rfl
        · exact Or.inr ⟨h1, h2⟩
    | true =>
      rw [run_bucket_cons_true hd]
      simp only [List.mem_cons, ih]
      constructor
      · rintro ⟨h1, h2⟩
        exact ⟨Or.inr h1, h2⟩
      · rintro ⟨rfl | h1, h2⟩
        · exact absurd h2 (by simp [hd])
        · exact ⟨h1, h2⟩

theorem run_plan_length (env : Env) :
    ∀ plan : List (Nat × List String),
      (run_plan env plan).1.length + (run_plan env plan).2.length =
        ((plan.map Prod.snd).map List.length).sum := by
  intro plan
  induction plan with
  | nil => rfl
  | cons b bs ih =>
    have hb := run_bucket_length env b.2
    simp only [run_plan, List.map_cons, List.sum_cons, List.length_append]
    omega

theorem run_plan_mem_del (env : Env) :
    ∀ (plan : List (Nat × List String)) p,
      p ∈ (run_plan env plan).1 ↔
        (∃ b ∈ plan, p ∈ b.2) ∧ env.delete_ok p = true := by
  intro plan p
  induction plan with
  | nil => simp [run_plan]
  | cons b bs ih =>
    simp only [run_plan, List.mem_append, run_bucket_mem_del, ih, List.mem_cons]
    constructor
    · rintro (⟨h1, h2⟩ | ⟨⟨b2, hb2, hp⟩, h2⟩)
      · exact ⟨⟨b, Or.inl rfl, h1⟩, h2⟩
      · exact ⟨⟨b2, Or.inr hb2, hp⟩, h2⟩
    · rintro ⟨⟨b2, rfl | hb2, hp⟩, h2⟩
      · exact Or.inl ⟨hp, h2⟩
      · exact Or.inr ⟨⟨b2, hb2, hp⟩, h2⟩

theorem run_plan_mem_fail (env : Env) :
    ∀ (plan : List (Nat × List String)) p,
      p ∈ (run_plan env plan).2 ↔
        (∃ b ∈ plan, p ∈ b.2) ∧ env.delete_ok p = false := by
  intro plan p
  induction plan with
  | nil => simp [run_plan]
  | cons b bs ih =>
    simp only [run_plan, List.mem_append, run_bucket_mem_fail, ih, List.mem_cons]
    constructor
    · rintro (⟨h1, h2⟩ | ⟨⟨b2, hb2, hp⟩, h2⟩)
      · exact ⟨⟨b, Or.inl rfl, h1⟩, h2⟩
      · exact ⟨⟨b2, Or.inr hb2, hp⟩, h2⟩
    · rintro ⟨⟨b2, rfl | hb2, hp⟩, h2⟩
      · exact Or.inl ⟨hp, h2⟩
      · exact Or.inr ⟨⟨b2, hb2, hp⟩, h2⟩

theorem mem_plan_buckets_iff (l : List AssetRec) (nm : String) :
    (∃ b ∈ build_plan l, nm ∈ b.2) ↔ ∃ r ∈ l, r.name = nm := by
  constructor
  · rintro ⟨⟨k, ps⟩, hb, hnm⟩
    obtain ⟨-, rfl⟩ := mem_build_plan.mp hb
    obtain ⟨r, hr, hrn, -⟩ := mem_bucket_iff.mp hnm
    exact ⟨r, hr, hrn⟩
  · rintro ⟨r, hr, rfl⟩
    obtain ⟨ps, hb, hm⟩ := bucket_exists hr
    exact ⟨(depth r.name, ps), hb, hm⟩

/-! Structural lemmas about `list_assets`. -/

theorem seqE_trace_subset {a : List RemoteCall × Except Err (List AssetRec)}
    {f : List AssetRec → List RemoteCall × Except Err (List AssetRec)}
    {x : RemoteCall} (h : x ∈ (seqE a f).1) :
    x ∈ a.1 ∨ ∃ l, a.2 = .ok l ∧ x ∈ (f l).1 := by
  obtain ⟨tr, res⟩ := a
  cases res with
  | error e => exact Or.inl h
  | ok l =>
    rcases List.mem_append.mp h with h1 | h1
    · exact Or.inl h1
    · exact Or.inr ⟨l, rfl, h1⟩

theorem seqE_err {a : List RemoteCall × Except Err (List AssetRec)}
    {f : List AssetRec → List RemoteCall × Except Err (List AssetRec)}
    {e : Err} (h : (seqE a f).2 = .error e) :
    a.2 = .error e ∨ ∃ l, a.2 = .ok l ∧ (f l).2 = .error e := by
  obtain ⟨tr, res⟩ := a
  cases res with
  | error e2 => exact Or.inl (by simpa [seqE] using h)
  | ok l => exact Or.inr ⟨l, rfl, by simpa [seqE] using h⟩

theorem check_asset_types_err {t : String ⊕ List String} {e : Err}
    (h : check_asset_types t = .error e) : e = .invalidKind := by
  simp only [check_asset_types] at h
  split at h
  all_goals try split at h
  all_goals try split at h
  all_goals first
    | (injection h with h2; exact h2.symm)
    | injection h

theorem list_assets_loop_no_del
    (recCall : String → Bool → Bool → List RemoteCall × Except Err (List AssetRec))
    (p : String) (h : ∀ nm e x, RemoteCall.deleteNode p ∉ (recCall nm e x).1)
    (pk : String) (rcv eic xcl : Bool) :
    ∀ cs, RemoteCall.deleteNode p ∉ (list_assets_loop recCall pk rcv eic xcl cs).1 := by
  intro cs
  induction cs with
  | nil => simp [list_assets_loop]
  | cons c ct ih =>
    intro hmem
    simp only [list_assets_loop] at hmem
    rcases seqE_trace_subset hmem with h1 | ⟨l1, -, h1⟩
    · revert h1
      split
      · exact h _ _ _
      · simp
    · rcases seqE_trace_subset h1 with h2 | ⟨l2, -, h2⟩
      · revert h2
        split
        · exact h _ _ _
        · simp
      · rcases seqE_trace_subset h2 with h3 | ⟨l3, -, h3⟩
        · exact ih h3
        · simp at h3

theorem list_assets_loop_err_src
    (recCall : String → Bool → Bool → List RemoteCall × Except Err (List AssetRec))
    (pk : String) (rcv eic xcl : Bool) :
    ∀ cs e3, (list_assets_loop recCall pk rcv eic xcl cs).2 = .error e3 →
      ∃ nm a b, (recCall nm a b).2 = .error e3 := by
  intro cs
  induction cs with
  | nil => simp [list_assets_loop]
  | cons c ct ih =>
    intro e3 hmem
    simp only [list_assets_loop] at hmem
    rcases seqE_err hmem with h1 | ⟨l1, -, h1⟩
    · revert h1
      split
      · intro h1
        exact ⟨_, _, _, h1⟩
      · simp
    · rcases seqE_err h1 with h2 | ⟨l2, -, h2⟩
      · revert h2
        split
        · intro h2
          exact ⟨_, _, _, h2⟩
        · simp
      · rcases seqE_err h2 with h3 | ⟨l3, -, h3⟩
        · exact ih _ h3
        · simp at h3

theorem list_assets_no_del :
    ∀ (fuel : Nat) (env : Env) (parent : String) (t : String ⊕ List String)
      (rcv inc eic xcl : Bool) (p : String),
      RemoteCall.deleteNode p ∉ (list_assets fuel env parent t rcv inc eic xcl).1 := by
  intro fuel
  induction fuel with
  | zero => intros; simp [list_assets]
  | succ n ih =>
    intro env parent t rcv inc eic xcl p
    have hloop := list_assets_loop_no_del
      (fun nm e2 x2 => list_assets n env nm (.inr []) true false e2 x2) p
      (fun nm e2 x2 => ih env nm (.inr []) true false e2 x2 p)
    intro hmem
    simp only [list_assets] at hmem
    revert hmem
    split
    · simp
    · split
      · simp
      · split
        · split
          · simp
          · split
            · simp only [List.mem_cons]
              rintro (h | h)
              · simp at h
              · exact hloop _ _ _ _ _ h
            · simp only [List.mem_cons]
              rintro (h | h)
              · simp at h
              · exact hloop _ _ _ _ _ h
        · simp

theorem list_assets_ne_err (bad : Err) (hbad1 : bad ≠ .fuelOut)
    (hbad2 : bad ≠ .invalidKind) (hbad3 : bad ≠ .notFound)
    (hbad4 : bad ≠ .notAContainer) (hbad5 : bad ≠ .remoteErr) :
    ∀ (fuel : Nat) (env : Env) (parent : String) (t : String ⊕ List String)
      (rcv inc eic xcl : Bool),
      (list_assets fuel env parent t rcv inc eic xcl).2 ≠ .error bad := by
  intro fuel
  induction fuel with
  | zero =>
    intro env parent t rcv inc eic xcl h
    simp only [list_assets] at h
    have h2 : Err.fuelOut = bad := by simpa using h
    exact hbad1 h2.symm
  | succ n ih =>
    intro env parent t rcv inc eic xcl h
    simp only [list_assets] at h
    revert h
    split
    · rename_i e2 hchk
      intro h
      have he : e2 = bad := by simpa using h
      exact hbad2 (by rw [← he]; exact check_asset_types_err hchk)
    · split
      · intro h
        have h2 : Err.notFound = bad := by simpa using h
        exact hbad3 h2.symm
      · split
        · split
          · intro h
            have h2 : Err.remoteErr = bad := by simpa using h
            exact hbad5 h2.symm
          · split
            · rename_i e3 hlp
              intro h
              have he : e3 = bad := by simpa using h
              obtain ⟨nm, a, b, hsrc⟩ := list_assets_loop_err_src _ _ _ _ _ _ _ hlp
              exact ih env nm (.inr []) true false a b (he ▸ hsrc)
            · intro h
              simp at h
        · intro h
          have h2 : Err.notAContainer = bad := by simpa using h
          exact hbad4 h2.symm

/-! The enumeration reads only the kind-resolution and child-listing
collaborators: two environments that agree on those yield identical runs. -/

theorem list_assets_env_indep :
    ∀ (fuel : Nat) (env1 env2 : Env), env1.kind = env2.kind →
      env1.children = env2.children →
      ∀ (parent : String) (t : String ⊕ List String) (rcv inc eic xcl : Bool),
        list_assets fuel env1 parent t rcv inc eic xcl =
          list_assets fuel env2 parent t rcv inc eic xcl := by
  intro fuel
  induction fuel with
  | zero => intros; rfl
  | succ n ih =>
    intro env1 env2 h1 h2 parent t rcv inc eic xcl
    have hcb : (fun nm e2 x2 => list_assets n env1 nm (.inr []) true false e2 x2) =
        (fun nm e2 x2 => list_assets n env2 nm (.inr []) true false e2 x2) := by
      funext nm e2 x2
      exact ih env1 env2 h1 h2 nm (.inr []) true false e2 x2
    simp only [list_assets]
    rw [congrFun h1 parent, congrFun h2 parent, hcb]

/-! Unfolding helpers for `prune`. -/

theorem prune_container_eq {env : Env} {root : String} {k : String}
    {t0 : String ⊕ List String} {types0 types : List String} {excl : Bool}
    {fuel : Nat} {stream : List String} {rcv eic inc sil dr : Bool}
    {ltr : List RemoteCall} {l : List AssetRec}
    (hk : env.kind root = some k)
    (hchk : check_asset_types t0 = .ok types0)
    (hval : prune_validate k types0 rcv eic = .ok (types, excl))
    (hcont : env.is_project root = true ∨ k = sFOLDER ∨ k = sIC)
    (hlist : list_assets fuel env root (.inr types) rcv inc eic excl = (ltr, .ok l)) :
    prune fuel env stream root t0 rcv eic inc sil dr =
      prune_finish env stream sil dr (.existsCheck root :: ltr) l
        (some (build_plan l)) := by
  simp only [prune, hk, hchk, hval]
  rw [if_pos (by simpa using hcont)]
  simp only [hlist]

theorem prune_container_err {env : Env} {root : String} {k : String}
    {t0 : String ⊕ List String} {types0 types : List String} {excl : Bool}
    {fuel : Nat} {stream : List String} {rcv eic inc sil dr : Bool}
    {ltr : List RemoteCall} {e : Err}
    (hk : env.kind root = some k)
    (hchk : check_asset_types t0 = .ok types0)
    (hval : prune_validate k types0 rcv eic = .ok (types, excl))
    (hcont : env.is_project root = true ∨ k = sFOLDER ∨ k = sIC)
    (hlist : list_assets fuel env root (.inr types) rcv inc eic excl = (ltr, .error e)) :
    prune fuel env stream root t0 rcv eic inc sil dr =
      (.existsCheck root :: ltr, .error e) := by
  simp only [prune, hk, hchk, hval]
  rw [if_pos (by simpa using hcont)]
  simp only [hlist]

theorem prune_single_eq {env : Env} {root : String} {k : String}
    {t0 : String ⊕ List String} {types0 types : List String} {excl : Bool}
    {fuel : Nat} {stream : List String} {rcv eic inc sil dr : Bool}
    (hk : env.kind root = some k)
    (hchk : check_asset_types t0 = .ok types0)
    (hval : prune_validate k types0 rcv eic = .ok (types, excl))
    (hcont : ¬(env.is_project root = true ∨ k = sFOLDER ∨ k = sIC)) :
    prune fuel env stream root t0 rcv eic inc sil dr =
      prune_finish env stream sil dr [.existsCheck root] [⟨root, k⟩] none := by
  simp only [prune, hk, hchk, hval]
  rw [if_neg (by simpa using hcont)]

theorem prune_validate_err {env : Env} {root : String} {k : String}
    {t0 : String ⊕ List String} {types0 : List String} {e : Err}
    {fuel : Nat} {stream : List String} {rcv eic inc sil dr : Bool}
    (hk : env.kind root = some k)
    (hchk : check_asset_types t0 = .ok types0)
    (hval : prune_validate k types0 rcv eic = .error e) :
    prune fuel env stream root t0 rcv eic inc sil dr =
      ([.existsCheck root], .error e) := by
  simp only [prune, hk, hchk, hval]

theorem prune_check_err {env : Env} {root : String} {k : String}
    {t0 : String ⊕ List String} {e : Err}
    {fuel : Nat} {stream : List String} {rcv eic inc sil dr : Bool}
    (hk : env.kind root = some k)
    (hchk : check_asset_types t0 = .error e) :
    prune fuel env stream root t0 rcv eic inc sil dr =
      ([.existsCheck root], .error e) := by
  simp only [prune, hk, hchk]

theorem prune_finish_confirmed {env : Env} {stream : List String} {sil : Bool}
    {tr : List RemoteCall} {al : List AssetRec} {plan : List (Nat × List String)}
    (hconf : sil = true ∨ request_del_confirmation stream = some true) :
    prune_finish env stream sil false tr al (some plan) =
      (tr ++ ((plan.map Prod.snd).flatten.map RemoteCall.deleteNode),
       .ok ⟨(run_plan env plan).1, (run_plan env plan).2, []⟩) := by
  rcases hconf with rfl | hreq
  · simp [prune_finish]
  · cases sil with
    | true => simp [prune_finish]
    | false => simp [prune_finish, hreq]

theorem prune_finish_declined {env : Env} {stream : List String}
    {tr : List RemoteCall} {al : List AssetRec}
    {plan? : Option (List (Nat × List String))}
    (hreq : request_del_confirmation stream = some false) :
    prune_finish env stream false false tr al plan? =
      (tr, .ok ⟨[], [], get_asset_names al⟩) := by
  simp [prune_finish, hreq]

theorem prune_finish_dry {env : Env} {stream : List String} {sil : Bool}
    {tr : List RemoteCall} {al : List AssetRec}
    {plan? : Option (List (Nat × List String))} :
    prune_finish env stream sil true tr al plan? =
      (tr, .ok ⟨[], [], get_asset_names al⟩) := by
  simp [prune_finish]

theorem prune_finish_crash {env : Env} {stream : List String} {sil : Bool}
    {tr : List RemoteCall} {al : List AssetRec}
    (hconf : sil = true ∨ request_del_confirmation stream = some true) :
    prune_finish env stream sil false tr al none = (tr, .error .unboundLocal) := by
  rcases hconf with rfl | hreq
  · simp [prune_finish]
  · cases sil with
    | true => simp [prune_finish]
    | false => simp [prune_finish, hreq]

/-! Concrete namespaces used to instantiate the claims. -/

def pProj : String := "proj"

def pIc : String := "proj/ic"

def pI1 : String := "proj/ic/i1"

def pI2 : String := "proj/ic/i2"

def pA : String := "proj/a"

def pStand : String := "proj/a/standalone"

/-- Namespace of the collections-only sweep scenario: folder `proj` holds
collection `proj/ic` (with images `i1`, `i2`) and folder `proj/a` (with a
standalone image). -/
def envC3 : Env where
  kind := fun p =>
    if p = pProj then some sFOLDER
    else if p = pIc then some sIC
    else if p = pI1 then some sIMAGE
    else if p = pI2 then some sIMAGE
    else if p = pA then some sFOLDER
    else if p = pStand then some sIMAGE
    else none
  children := fun p =>
    if p = pProj then some [⟨pIc, sIC⟩, ⟨pA, sFOLDER⟩]
    else if p = pIc then some [⟨pI1, sIMAGE⟩, ⟨pI2, sIMAGE⟩]
    else if p = pA then some [⟨pStand, sIMAGE⟩]
    else some []
  is_project := fun _ => false
  delete_ok := fun _ => true

/-- C1: for every enumerated candidate list, the deletion plan built by
`prune` (via `build_plan`) places every asset path in a bucket whose key
equals the path's segment count, and in no bucket with any other key (with the
keys pairwise distinct this is exactly one bucket); the bucket keys are
iterated in strictly descending order; and the per-bucket concatenation that
the deletion phase attempts (the flattened plan, in iteration order) has
monotonically non-increasing depths, so every entry of a deeper bucket is
attempted before any entry of a shallower bucket. -/
theorem c1_plan_depth_buckets (l : List AssetRec) (r : AssetRec) (h : r ∈ l) :
    (∃ ps, (depth r.name, ps) ∈ build_plan l ∧ r.name ∈ ps) ∧
    (∀ k ps, (k, ps) ∈ build_plan l → r.name ∈ ps → k = depth r.name) ∧
    ((build_plan l).map Prod.fst).Pairwise (fun a b => a > b) ∧
    (((build_plan l).map Prod.snd).flatten).Pairwise (fun a b => depth b ≤ depth a) :=
  ⟨bucket_exists h, fun _ _ hmem hn => bucket_unique hmem hn,
    keys_pairwise_gt l, plan_flatten_pairwise l⟩

/-- Witness for C1 at a two-record list. -/
theorem c1_plan_depth_buckets_w :
    (∃ ps, (depth pI1, ps) ∈ build_plan [⟨pI1, sIMAGE⟩, ⟨pIc, sIC⟩] ∧ pI1 ∈ ps) ∧
    (∀ k ps, (k, ps) ∈ build_plan [⟨pI1, sIMAGE⟩, ⟨pIc, sIC⟩] → pI1 ∈ ps →
      k = depth pI1) ∧
    ((build_plan [⟨pI1, sIMAGE⟩, ⟨pIc, sIC⟩]).map Prod.fst).Pairwise
      (fun a b => a > b) ∧
    (((build_plan [⟨pI1, sIMAGE⟩, ⟨pIc, sIC⟩]).map Prod.snd).flatten).Pairwise
      (fun a b => depth b ≤ depth a) :=
  c1_plan_depth_buckets [⟨pI1, sIMAGE⟩, ⟨pIc, sIC⟩] ⟨pI1, sIMAGE⟩ (by decide)

def pImg : String := "projects/p/assets/img"

/-- Namespace holding a single IMAGE asset. -/
def envC2 : Env where
  kind := fun p => if p = pImg then some sIMAGE else none
  children := fun _ => some []
  is_project := fun _ => false
  delete_ok := fun _ => true

/-- C2: pruning a non-container asset with an affirmative (silent)
confirmation does not delete and record the single asset: the source never
assigns `assets_ordered` on the non-container branch, so the deletion loop
raises `UnboundLocalError`.  The run performs the existence check, then
crashes with no delete attempted. -/
theorem c2_single_asset_confirmed_crash :
    prune 3 envC2 [] pImg (.inl sIMAGE) false false true true false =
      ([.existsCheck pImg], .error .unboundLocal) := by
  decide

/-- C3 counterexample: with kind filter `["IMAGE_COLLECTION"]`,
`list_assets` on `proj` (recursive, collections expanded) returns only the
collection record — the images `i1`, `i2` that the claim requires are removed
by the final kind filter. -/
theorem c3_collections_filter_cex :
    (list_assets 6 envC3 pProj (.inr [sIC]) true false true false).2 =
      .ok [⟨pIc, sIC⟩] ∧
    pI1 ∉ get_asset_names [⟨pIc, sIC⟩] ∧
    pI2 ∉ get_asset_names [⟨pIc, sIC⟩] := by
  refine ⟨by decide, by decide, by decide⟩

/-- C3 amended: the direct `List` call with filter `["IMAGE_COLLECTION"]`
returns exactly the collection (never `standalone`, and not `i1`, `i2`); the
scenario's expected result — `i1`, `i2` and the collection, never
`standalone` — is produced once IMAGE is added to the filter with the
exclusive-sweep flag, which is what `prune`'s validation arranges (shown here
by the dry run of `prune` with filter `IMAGE_COLLECTION`). -/
theorem c3_collections_sweep_amended :
    (list_assets 6 envC3 pProj (.inr [sIC, sIMAGE]) true false true true).2 =
      .ok [⟨pIc, sIC⟩, ⟨pI1, sIMAGE⟩, ⟨pI2, sIMAGE⟩] ∧
    (prune 6 envC3 [] pProj (.inl sIC) true true true false true).2 =
      .ok ⟨[], [], [pIc, pI1, pI2]⟩ := by
  refine ⟨by decide, by decide⟩

theorem prune_finish_err {env : Env} {stream : List String} {sil dr : Bool}
    {tr : List RemoteCall} {al : List AssetRec}
    {plan? : Option (List (Nat × List String))} {e : Err}
    (h : (prune_finish env stream sil dr tr al plan?).2 = .error e) :
    e = .noInput ∨ e = .unboundLocal := by
  simp only [prune_finish] at h
  split at h
  · simp at h
  · split at h
    · have h2 : Err.noInput = e := by simpa using h
      exact Or.inl h2.symm
    · simp at h
    · split at h
      · have h2 : Err.unboundLocal = e := by simpa using h
        exact Or.inr h2.symm
      · simp at h

def sBOGUS : String := "BOGUS"

def pC4 : String := "projects/p/assets/x"

/-- Namespace holding a single IMAGE asset for the C4 counterexample. -/
def envC4 : Env where
  kind := fun p => if p = pC4 then some sIMAGE else none
  children := fun _ => some []
  is_project := fun _ => false
  delete_ok := fun _ => true

/-- C4 counterexample: a `prune` call with an invalid kind name does fail with
the invalid-kind policy error, but its remote trace is not empty — the
existence check of the target runs before `_check_asset_types`, so a remote
call is made before policy validation completes. -/
theorem c4_validation_first_cex :
    (prune 3 envC4 [] pC4 (.inl sBOGUS) false false true true false).2 =
      .error .invalidKind ∧
    (prune 3 envC4 [] pC4 (.inl sBOGUS) false false true true false).1 =
      [.existsCheck pC4] ∧
    ([RemoteCall.existsCheck pC4] : List RemoteCall) ≠ [] := by
  refine ⟨by decide, by decide, by decide⟩

theorem prune_validate_err_class {k : String} {types : List String}
    {rcv eic : Bool} {e : Err}
    (h : prune_validate k types rcv eic = .error e) : e.isInvalidPolicy = true := by
  unfold prune_validate at h
  split at h
  all_goals try split at h
  all_goals try split at h
  all_goals try split at h
  all_goals first
    | (injection h with h2; subst h2; rfl)
    | injection h

/-- C4 amended: with an invalid policy — a kind name outside the closed set,
or an illegal flag combination (FOLDER without the full set, folder deletion
without both flags, collection deletion without expansion) — `prune` fails
with the corresponding `InvalidPolicy` error after the existence check but
before any listing or deletion call: the only remote call of the whole run is
the existence check of the target; when the target does not exist, the
existence check fails first with `NotFound`. -/
theorem c4_validation_after_existence
    (fuel : Nat) (env : Env) (stream : List String) (root : String)
    (t0 : String ⊕ List String) (rcv eic inc sil dr : Bool) :
    ((env.kind root).isSome → ∀ e, check_asset_types t0 = .error e →
      prune fuel env stream root t0 rcv eic inc sil dr =
        ([.existsCheck root], .error .invalidKind)) ∧
    (∀ (k : String) (types0 : List String) (e : Err),
      env.kind root = some k → check_asset_types t0 = .ok types0 →
      prune_validate k types0 rcv eic = .error e →
      prune fuel env stream root t0 rcv eic inc sil dr =
        ([.existsCheck root], .error e) ∧ e.isInvalidPolicy = true) ∧
    (env.kind root = none →
      prune fuel env stream root t0 rcv eic inc sil dr =
        ([.existsCheck root], .error .notFound)) := by
  refine ⟨?_, ?_, ?_⟩
  · intro hsome e hchk
    obtain ⟨k, hk⟩ := Option.isSome_iff_exists.mp hsome
    have he := check_asset_types_err hchk
    subst he
    exact prune_check_err hk hchk
  · intro k types0 e hk hchk hval
    exact ⟨prune_validate_err hk hchk hval, prune_validate_err_class hval⟩
  · intro hnone
    unfold prune
    rw [hnone]

/-- Witness for C4: a bad kind name, an illegal flag combination (collection
filter without expansion on folder `proj`), and a missing target. -/
theorem c4_validation_after_existence_w :
    prune 4 envC4 [] pC4 (.inr [sBOGUS]) true true true false false =
      ([.existsCheck pC4], .error .invalidKind) ∧
    (prune 3 envC3 [] pProj (.inl sIC) false false true true false =
      ([.existsCheck pProj], .error .icNeedsExpand) ∧
      Err.icNeedsExpand.isInvalidPolicy = true) ∧
    prune 3 envC4 [] pProj (.inr []) true true true true false =
      ([.existsCheck pProj], .error .notFound) :=
  ⟨(c4_validation_after_existence 4 envC4 [] pC4 (.inr [sBOGUS])
      true true true false false).1 (by decide) .invalidKind (by decide),
   (c4_validation_after_existence 3 envC3 [] pProj (.inl sIC)
      false false true true false).2.1 sFOLDER [sIC] .icNeedsExpand
      (by decide) (by decide) (by decide),
   (c4_validation_after_existence 3 envC4 [] pProj (.inr [])
      true true true true false).2.2 (by decide)⟩

def pIcr : String := "ic"

def pIcrI : String := "ic/i1"

/-- Namespace whose root is an image collection with one image. -/
def envC5 : Env where
  kind := fun p =>
    if p = pIcr then some sIC
    else if p = pIcrI then some sIMAGE
    else none
  children := fun p => if p = pIcr then some [⟨pIcrI, sIMAGE⟩] else some []
  is_project := fun _ => false
  delete_ok := fun _ => true

/-- C5 counterexample: the kind filter contains FOLDER (the full allowed set)
and `recursive = false`, yet `prune` does not fail with `InvalidPolicy`: the
target is an image collection, so the source skips the folder-flags rule
(`not _asset.is_image_collection()`) and the dry run completes normally. -/
theorem c5_folder_flags_cex :
    (prune 3 envC5 [] pIcr (.inr ALLOWED_ASSET_TYPES) false true true true true).2 =
      .ok ⟨[], [], [pIcr, pIcrI]⟩ := by
  decide

theorem prune_validate_flags_true {k : String} {types : List String} :
    prune_validate k types true true ≠ .error .folderNeedsFlags := by
  unfold prune_validate
  split
  · simp
  · split
    · rename_i hcond
      rcases hcond.2.2 with h | h <;> simp at h
    · split
      · simp
      · split <;> simp

/-- C5 amended: the folder-flags rule applies only when the target is not
itself an image collection: if the normalized filter contains FOLDER, the
target exists and is not an IMAGE_COLLECTION, and `recursive` or
`expand_image_collections` is false, then `prune` fails with an
`InvalidPolicy` error (no deletion occurs — the run stops at validation with
only the existence check performed); and with both flags true a `prune` run
never fails with the folder-flags error. -/
theorem c5_folder_flags_amended
    (fuel : Nat) (env : Env) (stream : List String) (root : String)
    (t0 : String ⊕ List String) (k : String) (types0 : List String)
    (rcv eic inc sil dr : Bool) :
    (env.kind root = some k → k ≠ sIC → check_asset_types t0 = .ok types0 →
      sFOLDER ∈ types0 → (rcv = false ∨ eic = false) →
      ∃ e, prune fuel env stream root t0 rcv eic inc sil dr =
        ([.existsCheck root], .error e) ∧ e.isInvalidPolicy = true) ∧
    (rcv = true → eic = true →
      (prune fuel env stream root t0 rcv eic inc sil dr).2 ≠
        .error .folderNeedsFlags) := by
  constructor
  · intro hk hkne hchk hfol hflags
    have hflags2 : ¬rcv = true ∨ ¬eic = true := by
      rcases hflags with h | h
      · exact Or.inl (by simp [h])
      · exact Or.inr (by simp [h])
    by_cases hall : ∀ t ∈ ALLOWED_ASSET_TYPES, t ∈ types0
    · have hval : prune_validate k types0 rcv eic = .error .folderNeedsFlags := by
        unfold prune_validate
        rw [if_neg (fun hc => hc.2 hall), if_pos ⟨hfol, hkne, hflags2⟩]
      exact ⟨.folderNeedsFlags, prune_validate_err hk hchk hval,
        by simp [Err.isInvalidPolicy]⟩
    · have hval : prune_validate k types0 rcv eic = .error .folderNeedsAll := by
        unfold prune_validate
        rw [if_pos ⟨hfol, hall⟩]
      exact ⟨.folderNeedsAll, prune_validate_err hk hchk hval,
        by simp [Err.isInvalidPolicy]⟩
  · intro hrcv heic
    subst hrcv
    subst heic
    intro hcontra
    unfold prune at hcontra
    revert hcontra
    split
    · simp
    · split
      · rename_i e hchk2
        intro hcontra
        have he : e = .folderNeedsFlags := by simpa using hcontra
        have h2 := check_asset_types_err hchk2
        simp_all
      · split
        · rename_i e hval2
          intro hcontra
          have he : e = .folderNeedsFlags := by simpa using hcontra
          subst he
          exact prune_validate_flags_true hval2
        · split
          · split
            · rename_i ltr e hlist2
              intro hcontra
              have he : e = .folderNeedsFlags := by simpa using hcontra
              subst he
              exact list_assets_ne_err .folderNeedsFlags (by simp) (by simp)
                (by simp) (by simp) (by simp) fuel env root (.inr _) true inc true _
                (by rw [hlist2])
            · intro hcontra
              rcases prune_finish_err hcontra with h | h <;> simp_all
          · intro hcontra
            rcases prune_finish_err hcontra with h | h <;> simp_all

def pTab : String := "projects/p/assets/tab"

/-- Namespace holding a single TABLE asset. -/
def envC6 : Env where
  kind := fun p => if p = pTab then some sTABLE else none
  children := fun _ => some []
  is_project := fun _ => false
  delete_ok := fun _ => true

/-- C6 counterexample: a confirmed (silent, non-dry-run) `prune` run on a
single TABLE asset returns no outcome at all — the run crashes with
`UnboundLocalError` (the candidate is never attempted), so the claimed
accounting `deleted + failed = candidates` fails for this confirmed run. -/
theorem c6_confirmed_outcome_cex :
    (prune 3 envC6 [] pTab (.inl sTABLE) false false true true false).2 =
      .error .unboundLocal ∧
    ¬∃ r : PruneResults,
      (prune 3 envC6 [] pTab (.inl sTABLE) false false true true false).2 =
        .ok r := by
  refine ⟨by decide, ?_⟩
  rintro ⟨r, hr⟩
  have h1 : (prune 3 envC6 [] pTab (.inl sTABLE) false false true true false).2 =
      .error .unboundLocal := by decide
  rw [h1] at hr
  simp at hr

/-- C6 amended: for every confirmed (non-dry-run, non-declined) `prune` run on
a container root whose enumeration succeeds, the outcome exists and satisfies
the claim: `skipped` is empty, `deleted` and `failed` lengths sum to the
number of candidates, every enumerated record lands in `deleted` exactly when
its remote delete succeeds and in `failed` exactly when it fails, and the
delete trace attempts exactly the plan's buckets in plan order — a failure on
one item never aborts the rest. -/
theorem c6_confirmed_accounting
    (fuel : Nat) (env : Env) (stream : List String) (root : String)
    (t0 : String ⊕ List String) (k : String) (types0 types : List String)
    (excl rcv eic inc sil : Bool) (ltr : List RemoteCall) (l : List AssetRec)
    (hk : env.kind root = some k)
    (hchk : check_asset_types t0 = .ok types0)
    (hval : prune_validate k types0 rcv eic = .ok (types, excl))
    (hcont : env.is_project root = true ∨ k = sFOLDER ∨ k = sIC)
    (hlist : list_assets fuel env root (.inr types) rcv inc eic excl = (ltr, .ok l))
    (hconf : sil = true ∨ request_del_confirmation stream = some true) :
    ∃ r : PruneResults,
      (prune fuel env stream root t0 rcv eic inc sil false).2 = .ok r ∧
      r.skipped = [] ∧
      r.deleted.length + r.failed.length = l.length ∧
      (∀ rec ∈ l, (rec.name ∈ r.deleted ↔ env.delete_ok rec.name = true) ∧
        (rec.name ∈ r.failed ↔ env.delete_ok rec.name = false)) ∧
      (prune fuel env stream root t0 rcv eic inc sil false).1 =
        .existsCheck root :: ltr ++
          ((build_plan l).map Prod.snd).flatten.map RemoteCall.deleteNode := by
  have heq := @prune_container_eq env root k t0 types0 types excl fuel stream
    rcv eic inc sil false ltr l hk hchk hval hcont hlist
  rw [heq, prune_finish_confirmed hconf]
  refine ⟨⟨(run_plan env (build_plan l)).1, (run_plan env (build_plan l)).2, []⟩,
    rfl, rfl, ?_, ?_, ?_⟩
  · dsimp only
    have h1 := run_plan_length env (build_plan l)
    have h2 := plan_lengths l
    omega
  · intro rec hrec
    dsimp only
    constructor
    · rw [run_plan_mem_del]
      constructor
      · rintro ⟨-, h2⟩
        exact h2
      · intro h2
        exact ⟨(mem_plan_buckets_iff l rec.name).mpr ⟨rec, hrec, rfl⟩, h2⟩
    · rw [run_plan_mem_fail]
      constructor
      · rintro ⟨-, h2⟩
        exact h2
      · intro h2
        exact ⟨(mem_plan_buckets_iff l rec.name).mpr ⟨rec, hrec, rfl⟩, h2⟩
  · simp

def pR : String := "r"

def pRx : String := "r/x"

def pRy : String := "r/y"

/-- Namespace for the C6 witness: folder `r` with two images, one of which
fails to delete remotely. -/
def envC6w : Env where
  kind := fun p =>
    if p = pR then some sFOLDER
    else if p = pRx then some sIMAGE
    else if p = pRy then some sIMAGE
    else none
  children := fun p => if p = pR then some [⟨pRx, sIMAGE⟩, ⟨pRy, sIMAGE⟩] else some []
  is_project := fun _ => false
  delete_ok := fun p => if p = pRx then false else true

/-- Witness for C6: a silent confirmed run on folder `r` where the delete of
`r/x` fails remotely. -/
theorem c6_confirmed_accounting_w :
    ∃ r : PruneResults,
      (prune 4 envC6w [] pR (.inr []) true true true true false).2 = .ok r ∧
      r.skipped = [] ∧
      r.deleted.length + r.failed.length =
        ([⟨pR, sFOLDER⟩, ⟨pRx, sIMAGE⟩, ⟨pRy, sIMAGE⟩] : List AssetRec).length ∧
      (∀ rec ∈ ([⟨pR, sFOLDER⟩, ⟨pRx, sIMAGE⟩, ⟨pRy, sIMAGE⟩] : List AssetRec),
        (rec.name ∈ r.deleted ↔ envC6w.delete_ok rec.name = true) ∧
        (rec.name ∈ r.failed ↔ envC6w.delete_ok rec.name = false)) ∧
      (prune 4 envC6w [] pR (.inr []) true true true true false).1 =
        .existsCheck pR :: [RemoteCall.listChildren pR] ++
          ((build_plan [⟨pR, sFOLDER⟩, ⟨pRx, sIMAGE⟩, ⟨pRy, sIMAGE⟩]).map
            Prod.snd).flatten.map RemoteCall.deleteNode :=
  c6_confirmed_accounting 4 envC6w [] pR (.inr []) sFOLDER ALLOWED_ASSET_TYPES
    ALLOWED_ASSET_TYPES false true true true true [RemoteCall.listChildren pR]
    [⟨pR, sFOLDER⟩, ⟨pRx, sIMAGE⟩, ⟨pRy, sIMAGE⟩]
    (by decide) (by decide) (by decide) (by decide) (by decide) (Or.inl rfl)

/-- Witness for C5: folder root, full kind filter, `recursive = false`. -/
theorem c5_folder_flags_amended_w :
    ∃ e, prune 3 envC3 [] pProj (.inr []) false false true true false =
      ([.existsCheck pProj], .error e) ∧ e.isInvalidPolicy = true :=
  (c5_folder_flags_amended 3 envC3 [] pProj (.inr []) sFOLDER ALLOWED_ASSET_TYPES
    false false true true false).1 (by decide) (by decide) (by decide) (by decide)
    (Or.inl rfl)

/-- C7 counterexample: the answer `maybe` is not an explicit affirmative, yet
the confirmation gate does not treat it as a decline — it re-prompts, and a
later `y` makes the gate accept (`some true`). -/
theorem c7_confirm_gate_cex :
    request_del_confirmation ["maybe", "y"] = some true ∧
    request_del_confirmation ["maybe", "y"] ≠ some false := by
  refine ⟨by decide, by decide⟩

/-- C7 amended: an answer outside `y`/`n`/empty (case-insensitively) is not a
decline but a re-prompt — the gate skips it and reads the next answer; the
valid answers `n` and empty (everything valid except `y`) decline; and a
declined, non-silent, non-dry-run `prune` run on a container root moves all
candidates into `skipped`, leaves `deleted` and `failed` empty, and performs
no remote delete call. -/
theorem c7_confirm_gate_amended
    (fuel : Nat) (env : Env) (stream : List String) (root : String)
    (t0 : String ⊕ List String) (k : String) (types0 types : List String)
    (excl rcv eic inc : Bool) (ltr : List RemoteCall) (l : List AssetRec)
    (ans : String) (rest : List String) :
    (strLower ans ≠ sY → strLower ans ≠ sN → ans ≠ sNo →
      request_del_confirmation (ans :: rest) = request_del_confirmation rest) ∧
    ((strLower ans = sN ∨ ans = sNo) →
      request_del_confirmation (ans :: rest) = some false) ∧
    (env.kind root = some k →
      check_asset_types t0 = .ok types0 →
      prune_validate k types0 rcv eic = .ok (types, excl) →
      (env.is_project root = true ∨ k = sFOLDER ∨ k = sIC) →
      list_assets fuel env root (.inr types) rcv inc eic excl = (ltr, .ok l) →
      request_del_confirmation stream = some false →
      prune fuel env stream root t0 rcv eic inc false false =
        (.existsCheck root :: ltr, .ok ⟨[], [], get_asset_names l⟩)) := by
  refine ⟨?_, ?_, ?_⟩
  · intro h1 h2 h3
    have h3l : strLower ans ≠ sNo := by
      intro hc
      apply h3
      have : ans.data.map Char.toLower = [] := congrArg String.data hc
      have hn : ans.data = [] := by
        cases hd : ans.data with
        | nil => rfl
        | cons c cs => rw [hd] at this; simp at this
      exact congrArg String.mk hn
    have hcond : ¬(strLower ans = sY ∨ strLower ans = sN ∨ strLower ans = sNo) := by
      rintro (h | h | h)
      exacts [h1 h, h2 h, h3l h]
    simp only [request_del_confirmation]
    rw [if_neg hcond]
  · intro hvalid
    simp only [request_del_confirmation]
    rcases hvalid with h | h
    · rw [if_pos (Or.inr (Or.inl h))]
      have hne : strLower ans ≠ sY := by
        rw [h]
        decide
      simp [hne]
    · have h2 : strLower ans = sNo := by
        rw [h]
        rfl
      rw [if_pos (Or.inr (Or.inr h2))]
      have hne : strLower ans ≠ sY := by
        rw [h2]
        decide
      simp [hne]
  · intro hk hchk hval hcont hlist hreq
    have heq := @prune_container_eq env root k t0 types0 types excl fuel stream
      rcv eic inc false false ltr l hk hchk hval hcont hlist
    rw [heq, prune_finish_declined hreq]

/-- Witness for C7: `maybe` re-prompts, `N` declines, and the declined run on
folder `proj` skips all candidates with no delete call. -/
theorem c7_confirm_gate_amended_w :
    request_del_confirmation ["maybe", "N"] = request_del_confirmation ["N"] ∧
    request_del_confirmation ["N"] = some false ∧
    prune 6 envC3 ["N"] pProj (.inr []) true true true false false =
      (.existsCheck pProj ::
        [RemoteCall.listChildren pProj, RemoteCall.listChildren pIc,
         RemoteCall.listChildren pA],
       .ok ⟨[], [], get_asset_names
         [⟨pProj, sFOLDER⟩, ⟨pIc, sIC⟩, ⟨pI1, sIMAGE⟩, ⟨pI2, sIMAGE⟩,
          ⟨pA, sFOLDER⟩, ⟨pStand, sIMAGE⟩]⟩) :=
  ⟨(c7_confirm_gate_amended 6 envC3 ["N"] pProj (.inr []) sFOLDER
      ALLOWED_ASSET_TYPES ALLOWED_ASSET_TYPES false true true true []
      [] "maybe" ["N"]).1 (by decide) (by decide) (by decide),
   (c7_confirm_gate_amended 6 envC3 ["N"] pProj (.inr []) sFOLDER
      ALLOWED_ASSET_TYPES ALLOWED_ASSET_TYPES false true true true []
      [] "N" []).2.1 (Or.inl (by decide)),
   (c7_confirm_gate_amended 6 envC3 ["N"] pProj (.inr []) sFOLDER
      ALLOWED_ASSET_TYPES ALLOWED_ASSET_TYPES false true true true
      [.listChildren pProj, .listChildren pIc, .listChildren pA]
      [⟨pProj, sFOLDER⟩, ⟨pIc, sIC⟩, ⟨pI1, sIMAGE⟩, ⟨pI2, sIMAGE⟩,
       ⟨pA, sFOLDER⟩, ⟨pStand, sIMAGE⟩] "x" []).2.2
      (by decide) (by decide) (by decide) (by decide) (by decide) (by decide)⟩

/-- C8: `list_assets` reads only the kind-resolution and child-listing
responses of the remote namespace, so two runs with the same policy against
environments giving the same remote responses produce identical results — in
particular the same set of records, independent of order. -/
theorem c8_list_idempotent (fuel : Nat) (env1 env2 : Env)
    (hkind : env1.kind = env2.kind) (hchildren : env1.children = env2.children)
    (parent : String) (t0 : String ⊕ List String) (rcv inc eic xcl : Bool) :
    list_assets fuel env1 parent t0 rcv inc eic xcl =
      list_assets fuel env2 parent t0 rcv inc eic xcl ∧
    (∀ rec l1 l2,
      (list_assets fuel env1 parent t0 rcv inc eic xcl).2 = .ok l1 →
      (list_assets fuel env2 parent t0 rcv inc eic xcl).2 = .ok l2 →
      (rec ∈ l1 ↔ rec ∈ l2)) := by
  have h := list_assets_env_indep fuel env1 env2 hkind hchildren parent t0 rcv inc eic xcl
  refine ⟨h, fun rec l1 l2 h1 h2 => ?_⟩
  rw [h, h2] at h1
  have : l2 = l1 := by simpa using h1
  rw [this]

/-- Environment agreeing with `envC3` on the remote responses but differing on
the other collaborators. -/
def envC8 : Env where
  kind := envC3.kind
  children := envC3.children
  is_project := fun _ => true
  delete_ok := fun _ => false

/-- Witness for C8: the sweep over `proj` is identical in `envC3` and
`envC8`. -/
theorem c8_list_idempotent_w :
    list_assets 6 envC3 pProj (.inr [sIC]) true false true false =
      list_assets 6 envC8 pProj (.inr [sIC]) true false true false ∧
    (∀ rec l1 l2,
      (list_assets 6 envC3 pProj (.inr [sIC]) true false true false).2 = .ok l1 →
      (list_assets 6 envC8 pProj (.inr [sIC]) true false true false).2 = .ok l2 →
      (rec ∈ l1 ↔ rec ∈ l2)) :=
  c8_list_idempotent 6 envC3 envC8 rfl rfl pProj (.inr [sIC]) true false true false

/-- C9: when the candidate listing of a `prune` run fails (any child-listing
failure propagates out of `list_assets` as an error), the whole call returns
that error: no outcome record is produced and no delete call appears in the
run's remote trace — deletion only starts from a fully materialized candidate
list. -/
theorem c9_listing_failure_aborts
    (fuel : Nat) (env : Env) (stream : List String) (root : String)
    (t0 : String ⊕ List String) (k : String) (types0 types : List String)
    (excl rcv eic inc sil dr : Bool) (ltr : List RemoteCall) (e : Err)
    (hk : env.kind root = some k)
    (hchk : check_asset_types t0 = .ok types0)
    (hval : prune_validate k types0 rcv eic = .ok (types, excl))
    (hcont : env.is_project root = true ∨ k = sFOLDER ∨ k = sIC)
    (hlist : list_assets fuel env root (.inr types) rcv inc eic excl =
      (ltr, .error e)) :
    prune fuel env stream root t0 rcv eic inc sil dr =
      (.existsCheck root :: ltr, .error e) ∧
    (¬∃ r : PruneResults,
      (prune fuel env stream root t0 rcv eic inc sil dr).2 = .ok r) ∧
    (∀ p, RemoteCall.deleteNode p ∉
      (prune fuel env stream root t0 rcv eic inc sil dr).1) := by
  have heq := @prune_container_err env root k t0 types0 types excl fuel stream
    rcv eic inc sil dr ltr e hk hchk hval hcont hlist
  refine ⟨heq, ?_, ?_⟩
  · rintro ⟨r, hr⟩
    rw [heq] at hr
    simp at hr
  · intro p hp
    rw [heq] at hp
    rcases List.mem_cons.mp hp with h | h
    · simp at h
    · have hsub := list_assets_no_del fuel env root (.inr types) rcv inc eic excl p
      have h2 : RemoteCall.deleteNode p ∈
          (list_assets fuel env root (.inr types) rcv inc eic excl).1 := by
        rw [congrArg Prod.fst hlist]
        exact h
      exact hsub h2

def pF9 : String := "f"

def pF9b : String := "f/b"

/-- Namespace whose nested folder listing fails remotely. -/
def envC9 : Env where
  kind := fun p =>
    if p = pF9 then some sFOLDER
    else if p = pF9b then some sFOLDER
    else none
  children := fun p => if p = pF9 then some [⟨pF9b, sFOLDER⟩] else none
  is_project := fun _ => false
  delete_ok := fun _ => true

/-- Witness for C9: the recursive listing under `f` fails on `f/b` and the
silent `prune` run aborts with the remote error, attempting no delete. -/
theorem c9_listing_failure_aborts_w :
    prune 4 envC9 [] pF9 (.inr []) true true true true false =
      (.existsCheck pF9 ::
        [RemoteCall.listChildren pF9, RemoteCall.listChildren pF9b],
       .error .remoteErr) ∧
    (¬∃ r : PruneResults,
      (prune 4 envC9 [] pF9 (.inr []) true true true true false).2 = .ok r) ∧
    (∀ p, RemoteCall.deleteNode p ∉
      (prune 4 envC9 [] pF9 (.inr []) true true true true false).1) :=
  c9_listing_failure_aborts 4 envC9 [] pF9 (.inr []) sFOLDER ALLOWED_ASSET_TYPES
    ALLOWED_ASSET_TYPES false true true true true false
    [RemoteCall.listChildren pF9, RemoteCall.listChildren pF9b] .remoteErr
    (by decide) (by decide) (by decide) (by decide) (by decide)

/-- C10: the kind-filter normalization shared by `list_assets` and `prune`:
a falsy input (empty string or empty list) becomes the full closed kind set;
a single string becomes a one-element filter; every entry is uppercased; an
entry whose uppercasing lies outside the closed set raises the invalid-kind
error; and both public entry points propagate that error. -/
theorem c10_kind_filter_normalization
    (fuel : Nat) (env : Env) (parent : String) (rcv inc eic xcl : Bool) :
    (check_asset_types (.inl sNo) = .ok ALLOWED_ASSET_TYPES ∧
     check_asset_types (.inr []) = .ok ALLOWED_ASSET_TYPES) ∧
    (∀ s : String, s ≠ sNo →
      (strUpper s ∈ ALLOWED_ASSET_TYPES →
        check_asset_types (.inl s) = .ok [strUpper s]) ∧
      (strUpper s ∉ ALLOWED_ASSET_TYPES →
        check_asset_types (.inl s) = .error .invalidKind)) ∧
    (∀ ts : List String, ts ≠ [] →
      ((∀ x ∈ ts, strUpper x ∈ ALLOWED_ASSET_TYPES) →
        check_asset_types (.inr ts) = .ok (ts.map (fun s => strUpper s))) ∧
      ((∃ x ∈ ts, strUpper x ∉ ALLOWED_ASSET_TYPES) →
        check_asset_types (.inr ts) = .error .invalidKind)) ∧
    (∀ (t0 : String ⊕ List String) (e : Err), check_asset_types t0 = .error e →
      (list_assets (fuel + 1) env parent t0 rcv inc eic xcl).2 =
        .error .invalidKind ∧
      (∀ (stream : List String) (root : String) (k : String) (sil dr : Bool),
        env.kind root = some k →
        (prune fuel env stream root t0 rcv eic inc sil dr).2 =
          .error .invalidKind)) := by
  refine ⟨⟨by decide, by decide⟩, ?_, ?_, ?_⟩
  · intro s hs
    constructor
    · intro hin
      simp only [check_asset_types]
      rw [if_neg hs, if_pos (by simpa using hin)]
      simp
    · intro hout
      simp only [check_asset_types]
      rw [if_neg hs, if_neg (fun hall => hout (by simpa using hall))]
  · intro ts hts
    constructor
    · intro hall
      simp only [check_asset_types]
      rw [if_neg hts, if_pos ?_]
      intro a ha
      obtain ⟨x, hx, rfl⟩ := List.mem_map.mp ha
      exact hall x hx
    · rintro ⟨x, hx, hout⟩
      simp only [check_asset_types]
      rw [if_neg hts, if_neg ?_]
      intro hall
      exact hout (hall _ (List.mem_map_of_mem _ hx))
  · intro t0 e hchk
    have he := check_asset_types_err hchk
    subst he
    constructor
    · simp only [list_assets, hchk]
    · intro stream root k sil dr hk
      rw [congrArg Prod.snd (prune_check_err hk hchk)]

def sImgLower : String := "image"

/-- Witness for C10: `image` normalizes to a one-element uppercase filter,
and both entry points reject the invalid kind name `BOGUS`. -/
theorem c10_kind_filter_normalization_w :
    check_asset_types (.inl sImgLower) = .ok [strUpper sImgLower] ∧
    (list_assets (3 + 1) envC4 pProj (.inl sBOGUS) true true true false).2 =
      .error .invalidKind ∧
    (prune 3 envC4 [] pC4 (.inl sBOGUS) true true true false false).2 =
      .error .invalidKind :=
  ⟨((c10_kind_filter_normalization 3 envC4 pProj true true true false).2.1
      sImgLower (by decide)).1 (by decide),
   ((c10_kind_filter_normalization 3 envC4 pProj true true true false).2.2.2
      (.inl sBOGUS) .invalidKind (by decide)).1,
   ((c10_kind_filter_normalization 3 envC4 pProj true true true false).2.2.2
      (.inl sBOGUS) .invalidKind (by decide)).2 [] pC4 sIMAGE false false
      (by decide)⟩
